import Mathlib

/-!
# Verification of `@tempojs/fs-credential-storage` (`src/fss.ts`)

A shallow embedding of the file-system credential storage module: the
`appDataDir` path resolver, the `encryptCredential` / `decryptCredential`
codec (hex framing and `:` splitting translated from the source; the
`aes-256-cbc` cipher that Node's `crypto` module provides is modelled as
CBC chaining with PKCS#7 padding over an abstract 16-byte block cipher),
and the `FileSystemStorageStrategy` class with its constructor and
`getCredential` / `storeCredential` / `removeCredential` operations over
an explicit file-system state.

Strings are `List Char`; byte sequences are `List Nat` with values below
256 where it matters.
-/

namespace FsCred

/-- Strings of the embedded program, as lists of characters. -/
abbrev Str := List Char

/-- Coerce a Lean string literal to the embedded string type. -/
def str (s : String) : Str := s.data

/-- The credential record from `@tempojs/common`: the spec fixes only that it
carries at minimum an identifier and a token string. -/
structure Credential where
  id : Str
  token : Str
deriving DecidableEq

/-- The error kinds of the spec's §7. Filesystem errors propagate unchanged and
are not modelled; the remaining kinds are produced by the embedded code. -/
inductive CredError where
  | invalidEnvelope
  | decryptionFailure
  | malformedRecord
  | invalidKeyLength
  | unsupportedPlatform
deriving DecidableEq

/-! ## Hex encoding (Node `Buffer` `hex` semantics) -/

/-- Lowercase hex digit for a value below 16 (Node's `toString("hex")`). -/
def hexDigitChar (n : Nat) : Char :=
  if n < 10 then Char.ofNat (48 + n) else Char.ofNat (87 + n)

/-- Hex-encode a byte sequence, two lowercase digits per byte. -/
def hexEncode : List Nat → Str
  | [] => []
  | b :: bs => hexDigitChar (b / 16) :: hexDigitChar (b % 16) :: hexEncode bs

/-- Value of one hex digit character, accepting both cases as `Buffer.from(_, "hex")` does. -/
def hexVal? (c : Char) : Option Nat :=
  if 48 ≤ c.toNat ∧ c.toNat ≤ 57 then some (c.toNat - 48)
  else if 97 ≤ c.toNat ∧ c.toNat ≤ 102 then some (c.toNat - 87)
  else if 65 ≤ c.toNat ∧ c.toNat ≤ 70 then some (c.toNat - 55)
  else none

/-- Modelled from the spec: `Buffer.from(s, "hex")` decodes pairs of hex digits
and stops at the first invalid pair (a trailing odd digit is dropped). -/
def hexDecode : Str → List Nat
  | c1 :: c2 :: rest =>
    match hexVal? c1, hexVal? c2 with
    | some h, some l => (16 * h + l) :: hexDecode rest
    | _, _ => []
  | _ => []

/-! ## String splitting and joining (JS `String.prototype.split` / `Array.prototype.join`) -/

/-- JS `s.split(sep)` for a one-character separator: always returns at least one
(possibly empty) segment. -/
def splitOnChar (sep : Char) : Str → List Str
  | [] => [[]]
  | c :: rest =>
    match splitOnChar sep rest with
    | [] => [[]]
    | h :: t => if c = sep then [] :: h :: t else (c :: h) :: t

/-- JS `parts.join(sep)` for a one-character separator. -/
def intercalateChar (sep : Char) : List Str → Str
  | [] => []
  | [s] => s
  | s :: rest => s ++ sep :: intercalateChar sep rest

/-! ## The `aes-256-cbc` cipher

The source calls `crypto.createCipheriv("aes-256-cbc", key, iv)`; Node's
implementation is external to this repository. Modelled from the spec:
"CBC mode with PKCS-style padding" over 16-byte blocks with a 16-byte IV.
The AES-256 block permutation itself stays abstract: the codec and the
theorems take an arbitrary pair of keyed block functions, constrained only
by `GoodCipher` (a keyed permutation on 16-byte blocks). All cipher-level
rejections (bad padding, wrong final block length, bad IV length) surface
as `none`, which the caller reports as `DecryptionFailure`. -/

/-- PKCS#7 padding to a multiple of 16 bytes: always appends `k ∈ [1,16]`
copies of the byte `k`. -/
def pkcs7Pad (bs : List Nat) : List Nat :=
  bs ++ List.replicate (16 - bs.length % 16) (16 - bs.length % 16)

/-- PKCS#7 unpadding: the last byte `k` must lie in `[1,16]` and the last `k`
bytes must all equal `k`; otherwise the padding check fails. -/
def pkcs7Unpad (bs : List Nat) : Option (List Nat) :=
  match bs.getLast? with
  | none => none
  | some k =>
    if 1 ≤ k ∧ k ≤ 16 ∧ k ≤ bs.length ∧ (bs.drop (bs.length - k)).all (fun x => x = k)
    then some (bs.take (bs.length - k))
    else none

/-- Fuel-driven chunking worker: peels a 16-byte chunk per fuel unit, so any
fuel at least the list length is enough. Structural recursion keeps it
computable by the kernel. -/
def toBlocksFuel : Nat → List Nat → List (List Nat)
  | _, [] => []
  | 0, _ :: _ => []
  | fuel + 1, b :: bs => (b :: bs).take 16 :: toBlocksFuel fuel ((b :: bs).drop 16)

/-- Chunk a byte sequence into 16-byte blocks (the last chunk may be short if
the length is not a multiple of 16). -/
def toBlocks (bs : List Nat) : List (List Nat) := toBlocksFuel bs.length bs

/-- Bytewise XOR of two equal-length blocks. -/
def xorBlock (a b : List Nat) : List Nat := List.zipWith (fun x y => x ^^^ y) a b

/-- CBC encryption chaining: each plaintext block is XORed with the previous
ciphertext block (initially the IV) before the block cipher is applied. -/
def cbcEncBlocks (E : Str → List Nat → List Nat) (key : Str) :
    List Nat → List (List Nat) → List (List Nat)
  | _, [] => []
  | prev, b :: bs =>
    let c := E key (xorBlock b prev)
    c :: cbcEncBlocks E key c bs

/-- CBC decryption chaining: each ciphertext block is deciphered and XORed with
the previous ciphertext block (initially the IV). -/
def cbcDecBlocks (D : Str → List Nat → List Nat) (key : Str) :
    List Nat → List (List Nat) → List (List Nat)
  | _, [] => []
  | prev, c :: cs => xorBlock (D key c) prev :: cbcDecBlocks D key c cs

/-- Model of `cipher.update(pt) + cipher.final()` for `aes-256-cbc`: pad, then CBC-chain. -/
def cbcEncrypt (E : Str → List Nat → List Nat) (key : Str) (iv pt : List Nat) : List Nat :=
  (cbcEncBlocks E key iv (toBlocks (pkcs7Pad pt))).flatten

/-- Model of `decipher.update(ct) + decipher.final()` for `aes-256-cbc`: the IV must be
16 bytes and the ciphertext a whole number of blocks, then CBC-chain and
strip padding; any rejection is `none`. -/
def cbcDecrypt (D : Str → List Nat → List Nat) (key : Str) (iv ct : List Nat) :
    Option (List Nat) :=
  if iv.length = 16 ∧ ct.length % 16 = 0 then
    pkcs7Unpad (cbcDecBlocks D key iv (toBlocks ct)).flatten
  else none

/-- A keyed block cipher pair behaving like AES-256: on 16-byte blocks of bytes
it preserves length and byte range, and decryption inverts encryption. -/
def GoodCipher (E D : Str → List Nat → List Nat) (key : Str) : Prop :=
  ∀ b : List Nat, b.length = 16 → (∀ x ∈ b, x < 256) →
    (E key b).length = 16 ∧ (∀ x ∈ E key b, x < 256) ∧ D key (E key b) = b

/-! ## The credential codec (`encryptCredential` / `decryptCredential`) -/

/-- Translation of `encryptCredential` from `src/fss.ts`: serialize the credential, encrypt its
UTF-8 bytes under CBC with the given IV, and frame as `iv_hex:ct_hex`.
`stringifyBytes` stands for `stringifyCredential` (from `@tempojs/common`, an
external collaborator the spec leaves canonical and round-trip safe) composed
with UTF-8 encoding; the random `crypto.randomBytes(16)` IV is a parameter. -/
def encryptCredential (E : Str → List Nat → List Nat)
    (stringifyBytes : Credential → List Nat)
    (encryptionKey : Str) (iv : List Nat) (credential : Credential) : Str :=
  hexEncode iv ++ ':' :: hexEncode (cbcEncrypt E encryptionKey iv (stringifyBytes credential))

/-- Translation of `decryptCredential` from `src/fss.ts`: split on `:`; fewer than two segments
is an invalid envelope; otherwise the first segment hex-decodes to the IV, the
remaining segments rejoined with `:` hex-decode to the ciphertext, which is
deciphered and parsed. `parseBytes` stands for `parseCredential` composed with
UTF-8 decoding; a parse failure is the `MalformedRecord` error of the spec. -/
def decryptCredential (D : Str → List Nat → List Nat)
    (parseBytes : List Nat → Option Credential)
    (encryptionKey : Str) (encrypted : Str) : Except CredError Credential :=
  let textParts := splitOnChar ':' encrypted
  if textParts.length < 2 then .error .invalidEnvelope
  else
    let iv := hexDecode (textParts.headD [])
    let encryptedText := hexDecode (intercalateChar ':' textParts.tail)
    match cbcDecrypt D encryptionKey iv encryptedText with
    | none => .error .decryptionFailure
    | some pt =>
      match parseBytes pt with
      | none => .error .malformedRecord
      | some credential => .ok credential

/-! ## Path resolution (`appDataDir`) -/

/-- The host platforms distinguished by `os.platform()` in the source. -/
inductive Platform where
  | win32
  | darwin
  | linux
  | other
deriving DecidableEq

/-- JS truthiness of a `string | undefined` value: `undefined` and the empty
string are falsy, every other string is truthy. -/
def strTruthy? : Option Str → Bool
  | none => false
  | some s => !s.isEmpty

/-- Modelled from the spec: Node `path.join` on two segments (no `.`/`..`
normalization, which the paths this module builds never need). -/
def pathJoin (a b : Str) : Str :=
  if a = [] then b else if b = [] then a else a ++ '/' :: b

/-- The override environment variable consulted first by `appDataDir`. -/
def overrideVarName : Str := str "APP_DATA_DIR_OVERRIDE"

/-- Translation of `appDataDir` from `src/fss.ts`: the override environment variable (if
truthy) short-circuits everything; otherwise the platform switch picks the
base (`APPDATA` or `<home>/AppData/Local` on win32, `<home>/Library/Application
Support` on darwin, `/var` on linux, an `UnsupportedPlatform` error elsewhere),
and the namespace is joined on. `env` is the process environment, `home` the
result of `os.homedir()`. -/
def appDataDir (env : Str → Option Str) (platform : Platform) (home ns : Str) :
    Except CredError Str :=
  if strTruthy? (env overrideVarName) then
    .ok (pathJoin ((env overrideVarName).getD []) ns)
  else
    match platform with
    | .win32 =>
        .ok (pathJoin
          (if strTruthy? (env (str "APPDATA")) then (env (str "APPDATA")).getD []
           else pathJoin (pathJoin home (str "AppData")) (str "Local")) ns)
    | .darwin =>
        .ok (pathJoin (pathJoin (pathJoin home (str "Library")) (str "Application Support")) ns)
    | .linux => .ok (pathJoin (str "/var") ns)
    | .other => .error .unsupportedPlatform

/-! ## File-system state

The relevant `fs` operations (`existsSync`, `readFile`, `writeFile`, `unlink`,
`mkdirSync`) act on an explicit state: files as an association list from path
to full text content (later writes shadow earlier ones), plus the set of
created directories. -/

structure Fs where
  files : List (Str × Str)
  dirs : List Str
deriving DecidableEq

/-- Full text content of the file at `p`, if it exists. -/
def Fs.readFile (fs : Fs) (p : Str) : Option Str :=
  (fs.files.find? (fun e => decide (e.1 = p))).map (fun e => e.2)

/-- Overwrite (or create) the file at `p` with content `c`. -/
def Fs.writeFile (fs : Fs) (p c : Str) : Fs :=
  { fs with files := (p, c) :: fs.files }

/-- Delete the file at `p` (`fs.promises.unlink`). -/
def Fs.deleteFile (fs : Fs) (p : Str) : Fs :=
  { fs with files := fs.files.filter (fun e => !decide (e.1 = p)) }

/-- Model of the construction-time `existsSync` check followed by a recursive `mkdirSync`. -/
def Fs.mkdirRec (fs : Fs) (d : Str) : Fs :=
  if fs.dirs.contains d then fs else { fs with dirs := d :: fs.dirs }

/-! ## The storage strategy -/

/-- The state of a constructed `FileSystemStorageStrategy`: the resolved data
directory and the optional encryption key exactly as passed. -/
structure FileSystemStorageStrategy where
  appDataDir : Str
  encryptionKey : Option Str
deriving DecidableEq

/-- The constructor of `FileSystemStorageStrategy`: first the key-length guard
(`encryptionKey && encryptionKey.length !== 32`, a JS truthiness test), then
path resolution, then directory creation. Errors carry out no state change. -/
def mkFileSystemStorageStrategy (env : Str → Option Str) (platform : Platform)
    (home ns : Str) (encryptionKey : Option Str) (fs : Fs) :
    Except CredError (FileSystemStorageStrategy × Fs) :=
  if strTruthy? encryptionKey ∧ (encryptionKey.getD []).length ≠ 32 then
    .error .invalidKeyLength
  else
    match appDataDir env platform home ns with
    | .error e => .error e
    | .ok dir => .ok (⟨dir, encryptionKey⟩, fs.mkdirRec dir)

/-- Translation of `getCredential`: absent file is the `ok none` success; otherwise the file's
full content is decrypted (when the stored key is truthy) or parsed as
plaintext. `parsePlain` stands for `parseCredential` applied to the raw text. -/
def getCredential (D : Str → List Nat → List Nat)
    (parseBytes : List Nat → Option Credential)
    (parsePlain : Str → Option Credential)
    (st : FileSystemStorageStrategy) (fs : Fs) (key : Str) :
    Except CredError (Option Credential) :=
  let credentialPath := pathJoin st.appDataDir key
  match fs.readFile credentialPath with
  | none => .ok none
  | some file =>
    if strTruthy? st.encryptionKey then
      match decryptCredential D parseBytes (st.encryptionKey.getD []) file with
      | .ok c => .ok (some c)
      | .error e => .error e
    else
      match parsePlain file with
      | some c => .ok (some c)
      | none => .error .malformedRecord

/-- Translation of `storeCredential`: serialize through the codec when the stored key is
truthy, else to canonical plaintext (`stringifyPlain` stands for
`stringifyCredential`), and write as the full file content. The fresh random
IV that `encryptCredential` draws is a parameter. -/
def storeCredential (E : Str → List Nat → List Nat)
    (stringifyBytes : Credential → List Nat)
    (stringifyPlain : Credential → Str)
    (st : FileSystemStorageStrategy) (iv : List Nat) (fs : Fs)
    (key : Str) (credential : Credential) : Fs :=
  let serialized :=
    if strTruthy? st.encryptionKey then
      encryptCredential E stringifyBytes (st.encryptionKey.getD []) iv credential
    else stringifyPlain credential
  fs.writeFile (pathJoin st.appDataDir key) serialized

/-- Translation of `removeCredential`: unlink the file if it exists, otherwise do nothing. -/
def removeCredential (st : FileSystemStorageStrategy) (fs : Fs) (key : Str) : Fs :=
  let credentialPath := pathJoin st.appDataDir key
  if (fs.readFile credentialPath).isSome then fs.deleteFile credentialPath else fs

instance {ε α : Type} [DecidableEq ε] [DecidableEq α] : DecidableEq (Except ε α) :=
  fun a b =>
    match a, b with
    | .ok x, .ok y =>
        if h : x = y then isTrue (by rw [h])
        else isFalse (fun hh => h (Except.ok.inj hh))
    | .error e, .error f =>
        if h : e = f then isTrue (by rw [h])
        else isFalse (fun hh => h (Except.error.inj hh))
    | .ok _, .error _ => isFalse (fun hh => Except.noConfusion hh)
    | .error _, .ok _ => isFalse (fun hh => Except.noConfusion hh)

/-! ## Concrete instantiations used to exercise the theorems

The block cipher and the `@tempojs/common` serializer pair are external
collaborators kept abstract in the embedding; the following concrete
instances satisfy their contracts and let closed statements evaluate. -/

/-- A trivially invertible keyed block function (the identity). -/
def idBlockE : Str → List Nat → List Nat := fun _ b => b

/-- Inverse of `idBlockE`. -/
def idBlockD : Str → List Nat → List Nat := fun _ b => b

/-- A concrete canonical serializer: identifier, newline, token. -/
def demoStringify (c : Credential) : Str := c.id ++ '\n' :: c.token

/-- Parser matching `demoStringify`: the first newline separates the fields. -/
def demoParse (s : Str) : Option Credential :=
  match splitOnChar '\n' s with
  | a :: b :: rest => some ⟨a, intercalateChar '\n' (b :: rest)⟩
  | _ => none

/-- Byte-level serializer: `demoStringify` then code points as bytes. -/
def demoStringifyBytes (c : Credential) : List Nat :=
  (demoStringify c).map Char.toNat

/-- Byte-level parser matching `demoStringifyBytes`. -/
def demoParseBytes (bs : List Nat) : Option Credential :=
  demoParse (bs.map Char.ofNat)

/-- A 32-character encryption key. -/
def demoKey : Str := List.replicate 32 'a'

/-- A concrete 16-byte IV. -/
def demoIv : List Nat := List.replicate 16 0

/-- A second, distinct 16-byte IV. -/
def demoIv2 : List Nat := 1 :: List.replicate 15 0

/-- The example record of the spec's §8. -/
def demoCred : Credential := ⟨str "1", str "test-token"⟩

/-- A record whose serialization spans three cipher blocks (35 bytes). -/
def c4Cred : Credential := ⟨str "1", str "test-token-0123456789012345678901"⟩

/-- A genuine envelope for `c4Cred` under the identity block cipher. -/
def c4Envelope : Str :=
  encryptCredential idBlockE demoStringifyBytes demoKey demoIv c4Cred

/-- The ciphertext bytes inside `c4Envelope`. -/
def c4Ct : List Nat := cbcEncrypt idBlockE demoKey demoIv (demoStringifyBytes c4Cred)

/-- The ciphertext `c4Ct` with one bit of byte 5 flipped — a single-byte flip inside the first
(non-final) ciphertext block. -/
def c4TamperedCt : List Nat := c4Ct.set 5 (c4Ct.getD 5 0 ^^^ 1)

/-- The envelope with the tampered ciphertext portion (same IV portion). -/
def c4Tampered : Str := hexEncode demoIv ++ ':' :: hexEncode c4TamperedCt

/-- An environment that sets the override variable to the empty string. -/
def envEmptyOverride : Str → Option Str :=
  fun v => if v = overrideVarName then some [] else none

/-- An environment that sets the override variable to `/tmp`. -/
def envTmpOverride : Str → Option Str :=
  fun v => if v = overrideVarName then some (str "/tmp") else none

/-! ## Cipher instance lemma -/

/-- The identity pair is a `GoodCipher` for every key. -/
theorem goodCipher_id (key : Str) : GoodCipher idBlockE idBlockD key :=
  fun _ hl hb => ⟨hl, hb, rfl⟩

/-! ## Hex lemmas -/

theorem hexVal?_hexDigitChar {n : Nat} (h : n < 16) :
    hexVal? (hexDigitChar n) = some n := by
  interval_cases n <;> rfl

theorem hexDigitChar_ne_colon {n : Nat} (h : n < 16) : hexDigitChar n ≠ ':' := by
  interval_cases n <;> decide

/-- Hex decoding inverts hex encoding on genuine byte sequences. -/
theorem hexDecode_hexEncode {bs : List Nat} (h : ∀ x ∈ bs, x < 256) :
    hexDecode (hexEncode bs) = bs := by
  induction bs with
  | nil => rfl
  | cons b bs ih =>
    have hb : b < 256 := h b (by simp)
    have h1 : b / 16 < 16 := by omega
    have h2 : b % 16 < 16 := by omega
    have hrest : ∀ x ∈ bs, x < 256 := fun x hx => h x (by simp [hx])
    simp only [hexEncode, hexDecode, hexVal?_hexDigitChar h1, hexVal?_hexDigitChar h2,
      ih hrest]
    congr 1
    omega

/-- The hex alphabet never contains the envelope separator. -/
theorem colon_not_mem_hexEncode {bs : List Nat} (h : ∀ x ∈ bs, x < 256) :
    ':' ∉ hexEncode bs := by
  induction bs with
  | nil => simp [hexEncode]
  | cons b bs ih =>
    have hb : b < 256 := h b (by simp)
    have h1 : b / 16 < 16 := by omega
    have h2 : b % 16 < 16 := by omega
    have hrest : ∀ x ∈ bs, x < 256 := fun x hx => h x (by simp [hx])
    simp only [hexEncode, List.mem_cons, not_or]
    exact ⟨fun hc => hexDigitChar_ne_colon h1 hc.symm,
      fun hc => hexDigitChar_ne_colon h2 hc.symm, ih hrest⟩

theorem hexEncode_length (bs : List Nat) : (hexEncode bs).length = 2 * bs.length := by
  induction bs with
  | nil => rfl
  | cons b bs ih => simp [hexEncode, ih]; omega

/-- Hex encoding is injective on genuine byte sequences. -/
theorem hexEncode_inj {a b : List Nat} (ha : ∀ x ∈ a, x < 256) (hb : ∀ x ∈ b, x < 256)
    (h : hexEncode a = hexEncode b) : a = b := by
  have := congrArg hexDecode h
  rwa [hexDecode_hexEncode ha, hexDecode_hexEncode hb] at this

/-! ## Split / join lemmas -/

theorem splitOnChar_ne_nil (sep : Char) (s : Str) : splitOnChar sep s ≠ [] := by
  cases s with
  | nil => simp [splitOnChar]
  | cons c rest =>
    simp only [splitOnChar]
    cases splitOnChar sep rest with
    | nil => simp
    | cons h t =>
      by_cases hc : c = sep <;> simp [hc]

/-- Splitting a separator-free string yields exactly one segment. -/
theorem splitOnChar_of_not_mem {sep : Char} {s : Str} (h : sep ∉ s) :
    splitOnChar sep s = [s] := by
  induction s with
  | nil => rfl
  | cons c rest ih =>
    have hc : c ≠ sep := fun hc => h (by simp [hc])
    have hrest : sep ∉ rest := fun hm => h (by simp [hm])
    simp only [splitOnChar, ih hrest]
    simp [hc]

/-- Splitting past the first separator when the prefix is separator-free. -/
theorem splitOnChar_append_cons {sep : Char} {a : Str} (b : Str) (h : sep ∉ a) :
    splitOnChar sep (a ++ sep :: b) = a :: splitOnChar sep b := by
  induction a with
  | nil =>
    simp only [List.nil_append, splitOnChar]
    cases hs : splitOnChar sep b with
    | nil => exact absurd hs (splitOnChar_ne_nil sep b)
    | cons x t => simp
  | cons c rest ih =>
    have hc : c ≠ sep := fun hc => h (by simp [hc])
    have hrest : sep ∉ rest := fun hm => h (by simp [hm])
    simp only [List.cons_append, splitOnChar, List.append_eq]
    rw [ih hrest]
    simp [hc]

/-- Rejoining the split segments recovers the original string. -/
theorem intercalateChar_splitOnChar (sep : Char) (s : Str) :
    intercalateChar sep (splitOnChar sep s) = s := by
  induction s with
  | nil => rfl
  | cons c rest ih =>
    simp only [splitOnChar]
    cases hs : splitOnChar sep rest with
    | nil => exact absurd hs (splitOnChar_ne_nil sep rest)
    | cons x t =>
      rw [hs] at ih
      by_cases hc : c = sep
      · subst hc
        simp only [if_pos rfl, intercalateChar, List.nil_append]
        rw [ih]
      · simp only [if_neg hc]
        cases t with
        | nil =>
          simp only [intercalateChar] at ih ⊢
          rw [ih]
        | cons y u =>
          simp only [intercalateChar] at ih ⊢
          rw [List.cons_append, ih]

/-! ## Padding lemmas -/

theorem pkcs7Unpad_pkcs7Pad (bs : List Nat) : pkcs7Unpad (pkcs7Pad bs) = some bs := by
  have hr : bs.length % 16 < 16 := Nat.mod_lt _ (by norm_num)
  have hk1 : 1 ≤ 16 - bs.length % 16 := by omega
  have hk16 : 16 - bs.length % 16 ≤ 16 := by omega
  simp only [pkcs7Pad, pkcs7Unpad, List.getLast?_append, List.getLast?_replicate]
  rw [if_neg (by omega : ¬(16 - bs.length % 16 = 0))]
  simp only [Option.or_some]
  have hlen : (bs ++ List.replicate (16 - bs.length % 16) (16 - bs.length % 16)).length
      = bs.length + (16 - bs.length % 16) := by
    simp [List.length_append, List.length_replicate]
  rw [hlen]
  have hsub : bs.length + (16 - bs.length % 16) - (16 - bs.length % 16) = bs.length := by
    omega
  rw [hsub]
  have hdrop : (bs ++ List.replicate (16 - bs.length % 16) (16 - bs.length % 16)).drop
      bs.length = List.replicate (16 - bs.length % 16) (16 - bs.length % 16) :=
    List.drop_left bs _
  have htake : (bs ++ List.replicate (16 - bs.length % 16) (16 - bs.length % 16)).take
      bs.length = bs :=
    List.take_left bs _
  rw [hdrop, htake]
  rw [if_pos]
  refine ⟨hk1, hk16, by omega, ?_⟩
  simp only [List.all_eq_true]
  intro x hx
  rcases List.mem_replicate.mp hx with ⟨-, rfl⟩
  simp

theorem pkcs7Pad_length_mod (bs : List Nat) : (pkcs7Pad bs).length % 16 = 0 := by
  simp only [pkcs7Pad, List.length_append, List.length_replicate]
  omega

theorem pkcs7Pad_lt {bs : List Nat} (h : ∀ x ∈ bs, x < 256) :
    ∀ x ∈ pkcs7Pad bs, x < 256 := by
  intro x hx
  rcases List.mem_append.mp hx with hm | hm
  · exact h x hm
  · rcases List.mem_replicate.mp hm with ⟨-, rfl⟩
    omega

/-! ## Block lemmas -/

theorem toBlocksFuel_flatten : ∀ (fuel : Nat) (bs : List Nat), bs.length ≤ fuel →
    (toBlocksFuel fuel bs).flatten = bs := by
  intro fuel
  induction fuel with
  | zero =>
    intro bs h
    cases bs with
    | nil => rfl
    | cons b tl => simp at h
  | succ f ih =>
    intro bs h
    cases bs with
    | nil => rfl
    | cons b tl =>
      rw [toBlocksFuel, List.flatten_cons,
        ih ((b :: tl).drop 16) (by simp [List.length_drop] at h ⊢; omega),
        List.take_append_drop]

theorem flatten_toBlocks (bs : List Nat) : (toBlocks bs).flatten = bs :=
  toBlocksFuel_flatten bs.length bs (le_refl _)

theorem toBlocksFuel_length_eq : ∀ (fuel : Nat) (bs : List Nat), bs.length ≤ fuel →
    bs.length % 16 = 0 → ∀ b ∈ toBlocksFuel fuel bs, b.length = 16 := by
  intro fuel
  induction fuel with
  | zero =>
    intro bs hf hmod
    cases bs with
    | nil => simp [toBlocksFuel]
    | cons b tl => simp at hf
  | succ f ih =>
    intro bs hf hmod
    cases bs with
    | nil => simp [toBlocksFuel]
    | cons b tl =>
      have hmod1 : (tl.length + 1) % 16 = 0 := by simpa using hmod
      have hf1 : tl.length + 1 ≤ f + 1 := by simpa using hf
      have h16 : 16 ≤ tl.length + 1 := by omega
      rw [toBlocksFuel]
      intro blk hblk
      rcases List.mem_cons.mp hblk with rfl | hblk
      · simp [List.length_take]
        omega
      · exact ih ((b :: tl).drop 16)
          (by simp only [List.length_drop, List.length_cons]; omega)
          (by simp only [List.length_drop, List.length_cons]; omega) blk hblk

theorem toBlocks_length_eq {bs : List Nat} (h : bs.length % 16 = 0) :
    ∀ b ∈ toBlocks bs, b.length = 16 :=
  toBlocksFuel_length_eq bs.length bs (le_refl _) h

theorem toBlocksFuel_mem_mem : ∀ (fuel : Nat) (bs : List Nat) (b : List Nat),
    b ∈ toBlocksFuel fuel bs → ∀ x ∈ b, x ∈ bs := by
  intro fuel
  induction fuel with
  | zero =>
    intro bs b hb
    cases bs with
    | nil => simp [toBlocksFuel] at hb
    | cons c tl => simp [toBlocksFuel] at hb
  | succ f ih =>
    intro bs b hb
    cases bs with
    | nil => simp [toBlocksFuel] at hb
    | cons c tl =>
      rw [toBlocksFuel] at hb
      rcases List.mem_cons.mp hb with rfl | hb
      · exact fun x hx => List.mem_of_mem_take hx
      · exact fun x hx => List.mem_of_mem_drop (ih ((c :: tl).drop 16) b hb x hx)

theorem toBlocks_mem_mem {bs : List Nat} {b : List Nat} (hb : b ∈ toBlocks bs) :
    ∀ x ∈ b, x ∈ bs :=
  toBlocksFuel_mem_mem bs.length bs b hb

theorem toBlocksFuel_flatten_blocks : ∀ (blocks : List (List Nat)) (fuel : Nat),
    (∀ b ∈ blocks, b.length = 16) → blocks.flatten.length ≤ fuel →
    toBlocksFuel fuel blocks.flatten = blocks := by
  intro blocks
  induction blocks with
  | nil => intro fuel h hf; cases fuel <;> rfl
  | cons b rest ih =>
    intro fuel h hf
    have hb : b.length = 16 := h b (by simp)
    have hlen : (b :: rest).flatten.length = 16 + rest.flatten.length := by
      simp [List.flatten_cons, List.length_append, hb]
    cases fuel with
    | zero => omega
    | succ f =>
      have hcons : ∃ c ctl, b = c :: ctl := by
        cases b with
        | nil => simp at hb
        | cons c ctl => exact ⟨c, ctl, rfl⟩
      obtain ⟨c, ctl, rfl⟩ := hcons
      rw [List.flatten_cons, List.cons_append, toBlocksFuel]
      have ht : ((c :: ctl) ++ rest.flatten).take 16 = c :: ctl := by
        conv_lhs => rw [← hb]
        exact List.take_left _ _
      have hd : ((c :: ctl) ++ rest.flatten).drop 16 = rest.flatten := by
        conv_lhs => rw [← hb]
        exact List.drop_left _ _
      rw [← List.cons_append, ht, hd,
        ih f (fun x hx => h x (by simp [hx])) (by omega)]

theorem toBlocks_flatten {blocks : List (List Nat)}
    (h : ∀ b ∈ blocks, b.length = 16) : toBlocks blocks.flatten = blocks :=
  toBlocksFuel_flatten_blocks blocks blocks.flatten.length h (le_refl _)

theorem flatten_length_of_blocks {blocks : List (List Nat)}
    (h : ∀ b ∈ blocks, b.length = 16) :
    blocks.flatten.length = 16 * blocks.length := by
  induction blocks with
  | nil => simp
  | cons b rest ih =>
    have hb : b.length = 16 := h b (by simp)
    simp [List.length_append, hb, ih (fun x hx => h x (by simp [hx]))]
    ring

/-! ## XOR lemmas -/

theorem xorBlock_length {a b : List Nat} {n : Nat} (ha : a.length = n)
    (hb : b.length = n) : (xorBlock a b).length = n := by
  simp [xorBlock, List.length_zipWith, ha, hb]

theorem xorBlock_lt {a b : List Nat} (ha : ∀ x ∈ a, x < 256) (hb : ∀ x ∈ b, x < 256) :
    ∀ x ∈ xorBlock a b, x < 256 := by
  induction a generalizing b with
  | nil => simp [xorBlock]
  | cons c a ih =>
    cases b with
    | nil => simp [xorBlock]
    | cons d b =>
      intro x hx
      rcases List.mem_cons.mp hx with rfl | hx
      · have h1 : c < 2 ^ 8 := ha c (by simp)
        have h2 : d < 2 ^ 8 := hb d (by simp)
        exact Nat.xor_lt_two_pow h1 h2
      · exact ih (fun y hy => ha y (by simp [hy])) (fun y hy => hb y (by simp [hy])) x hx

theorem xorBlock_cancel {a b : List Nat} (h : a.length = b.length) :
    xorBlock (xorBlock a b) b = a := by
  induction a generalizing b with
  | nil => simp [xorBlock]
  | cons c a ih =>
    cases b with
    | nil => simp at h
    | cons d b =>
      simp only [xorBlock, List.zipWith_cons_cons, Nat.xor_cancel_right]
      exact congrArg _ (ih (by simpa using h))

/-! ## CBC chain lemmas -/

/-- Well-formedness of one block of input to the CBC chain. -/
def GoodBlock (b : List Nat) : Prop := b.length = 16 ∧ ∀ x ∈ b, x < 256

theorem cbcEncBlocks_good {E D : Str → List Nat → List Nat} {key : Str}
    (hc : GoodCipher E D key) :
    ∀ (blocks : List (List Nat)) (prev : List Nat),
      (∀ b ∈ blocks, GoodBlock b) → GoodBlock prev →
      ∀ c ∈ cbcEncBlocks E key prev blocks, GoodBlock c := by
  intro blocks
  induction blocks with
  | nil => simp [cbcEncBlocks]
  | cons b bs ih =>
    intro prev hblocks hprev c hc2
    obtain ⟨hbl, hbb⟩ := hblocks b (by simp)
    have hxl : (xorBlock b prev).length = 16 := xorBlock_length hbl hprev.1
    have hxb : ∀ x ∈ xorBlock b prev, x < 256 := xorBlock_lt hbb hprev.2
    obtain ⟨hel, heb, -⟩ := hc (xorBlock b prev) hxl hxb
    simp only [cbcEncBlocks, List.mem_cons] at hc2
    rcases hc2 with rfl | hc2
    · exact ⟨hel, heb⟩
    · exact ih (E key (xorBlock b prev)) (fun x hx => hblocks x (by simp [hx]))
        ⟨hel, heb⟩ c hc2

theorem cbcDecBlocks_cbcEncBlocks {E D : Str → List Nat → List Nat} {key : Str}
    (hc : GoodCipher E D key) :
    ∀ (blocks : List (List Nat)) (prev : List Nat),
      (∀ b ∈ blocks, GoodBlock b) → GoodBlock prev →
      cbcDecBlocks D key prev (cbcEncBlocks E key prev blocks) = blocks := by
  intro blocks
  induction blocks with
  | nil => simp [cbcEncBlocks, cbcDecBlocks]
  | cons b bs ih =>
    intro prev hblocks hprev
    obtain ⟨hbl, hbb⟩ := hblocks b (by simp)
    have hxl : (xorBlock b prev).length = 16 := xorBlock_length hbl hprev.1
    have hxb : ∀ x ∈ xorBlock b prev, x < 256 := xorBlock_lt hbb hprev.2
    obtain ⟨hel, heb, hinv⟩ := hc (xorBlock b prev) hxl hxb
    simp only [cbcEncBlocks, cbcDecBlocks]
    rw [hinv, xorBlock_cancel (by rw [hbl, hprev.1])]
    rw [ih (E key (xorBlock b prev)) (fun x hx => hblocks x (by simp [hx])) ⟨hel, heb⟩]

/-- The ciphertext bytes produced by `cbcEncrypt` are genuine bytes. -/
theorem cbcEncrypt_lt {E D : Str → List Nat → List Nat} {key : Str} {iv pt : List Nat}
    (hc : GoodCipher E D key) (hiv : iv.length = 16) (hivb : ∀ x ∈ iv, x < 256)
    (hpt : ∀ x ∈ pt, x < 256) :
    ∀ x ∈ cbcEncrypt E key iv pt, x < 256 := by
  intro x hx
  rcases List.mem_flatten.mp hx with ⟨c, hcmem, hxc⟩
  have hblocks : ∀ b ∈ toBlocks (pkcs7Pad pt), GoodBlock b := fun b hb =>
    ⟨toBlocks_length_eq (pkcs7Pad_length_mod pt) b hb,
     fun y hy => pkcs7Pad_lt hpt y (toBlocks_mem_mem hb y hy)⟩
  exact (cbcEncBlocks_good hc _ iv hblocks ⟨hiv, hivb⟩ c hcmem).2 x hxc

/-- The ciphertext length is a whole number of 16-byte blocks. -/
theorem cbcEncrypt_length_mod {E D : Str → List Nat → List Nat} {key : Str}
    {iv pt : List Nat} (hc : GoodCipher E D key) (hiv : iv.length = 16)
    (hivb : ∀ x ∈ iv, x < 256) (hpt : ∀ x ∈ pt, x < 256) :
    (cbcEncrypt E key iv pt).length % 16 = 0 := by
  have hblocks : ∀ b ∈ toBlocks (pkcs7Pad pt), GoodBlock b := fun b hb =>
    ⟨toBlocks_length_eq (pkcs7Pad_length_mod pt) b hb,
     fun y hy => pkcs7Pad_lt hpt y (toBlocks_mem_mem hb y hy)⟩
  have hgood := cbcEncBlocks_good hc (toBlocks (pkcs7Pad pt)) iv hblocks ⟨hiv, hivb⟩
  rw [cbcEncrypt, flatten_length_of_blocks (fun b hb => (hgood b hb).1)]
  omega

/-- CBC decryption inverts CBC encryption: the padded-and-chained ciphertext
deciphers and unpads back to the plaintext. -/
theorem cbcDecrypt_cbcEncrypt {E D : Str → List Nat → List Nat} {key : Str}
    {iv pt : List Nat} (hc : GoodCipher E D key) (hiv : iv.length = 16)
    (hivb : ∀ x ∈ iv, x < 256) (hpt : ∀ x ∈ pt, x < 256) :
    cbcDecrypt D key iv (cbcEncrypt E key iv pt) = some pt := by
  have hblocks : ∀ b ∈ toBlocks (pkcs7Pad pt), GoodBlock b := fun b hb =>
    ⟨toBlocks_length_eq (pkcs7Pad_length_mod pt) b hb,
     fun y hy => pkcs7Pad_lt hpt y (toBlocks_mem_mem hb y hy)⟩
  have hgood := cbcEncBlocks_good hc (toBlocks (pkcs7Pad pt)) iv hblocks ⟨hiv, hivb⟩
  rw [cbcDecrypt, if_pos ⟨hiv, cbcEncrypt_length_mod hc hiv hivb hpt⟩]
  rw [cbcEncrypt, toBlocks_flatten (fun b hb => (hgood b hb).1)]
  rw [cbcDecBlocks_cbcEncBlocks hc _ iv hblocks ⟨hiv, hivb⟩]
  rw [flatten_toBlocks, pkcs7Unpad_pkcs7Pad]

/-! ## Codec round trip -/

/-- Shared round-trip core: decrypting the envelope `encryptCredential` builds
recovers the record, given a genuine block cipher, a 16-byte IV, and a
serializer pair that round-trips on the record. -/
theorem decrypt_encrypt_eq_ok {E D : Str → List Nat → List Nat} {key : Str}
    {iv : List Nat} {r : Credential} {stringifyBytes : Credential → List Nat}
    {parseBytes : List Nat → Option Credential}
    (hc : GoodCipher E D key) (hiv : iv.length = 16) (hivb : ∀ x ∈ iv, x < 256)
    (hsb : ∀ x ∈ stringifyBytes r, x < 256)
    (hround : parseBytes (stringifyBytes r) = some r) :
    decryptCredential D parseBytes key (encryptCredential E stringifyBytes key iv r)
      = .ok r := by
  have hctb : ∀ x ∈ cbcEncrypt E key iv (stringifyBytes r), x < 256 :=
    cbcEncrypt_lt hc hiv hivb hsb
  have hsplit : splitOnChar ':' (encryptCredential E stringifyBytes key iv r)
      = [hexEncode iv, hexEncode (cbcEncrypt E key iv (stringifyBytes r))] := by
    rw [encryptCredential, splitOnChar_append_cons _ (colon_not_mem_hexEncode hivb),
      splitOnChar_of_not_mem (colon_not_mem_hexEncode hctb)]
  rw [decryptCredential]
  simp only [hsplit, List.length_cons, List.length_nil, List.headD_cons, List.tail_cons,
    intercalateChar]
  rw [if_neg (by omega)]
  rw [hexDecode_hexEncode hivb, hexDecode_hexEncode hctb]
  rw [cbcDecrypt_cbcEncrypt hc hiv hivb hsb]
  simp only [hround]

/-! ## File-system lemmas -/

theorem readFile_writeFile_self (fs : Fs) (p c : Str) :
    (fs.writeFile p c).readFile p = some c := by
  simp [Fs.readFile, Fs.writeFile, List.find?_cons]

theorem find?_filter_ne (l : List (Str × Str)) (p : Str) :
    (l.filter (fun e => !decide (e.1 = p))).find? (fun e => decide (e.1 = p)) = none := by
  induction l with
  | nil => rfl
  | cons e l ih =>
    by_cases he : e.1 = p
    · simp [List.filter_cons, he, ih]
    · simp [List.filter_cons, he, List.find?_cons, ih]

theorem readFile_deleteFile_self (fs : Fs) (p : Str) :
    (fs.deleteFile p).readFile p = none := by
  simp [Fs.readFile, Fs.deleteFile, find?_filter_ne]

theorem strTruthy?_some_of_ne {k : Str} (h : k ≠ []) : strTruthy? (some k) = true := by
  cases k with
  | nil => exact absurd rfl h
  | cons c cs => rfl

/-! ## Claim theorems -/

/-- C1: for every valid credential record `r` and every 32-unit encryption key
`k`, decrypting the envelope produced by encrypting `r` under `k` (with the IV
recorded in the envelope) yields a record equal to `r`:
`decrypt(encrypt(r, k), k) = r`. -/
theorem c1_decrypt_encrypt_roundtrip {E D : Str → List Nat → List Nat} {key : Str}
    {iv : List Nat} {r : Credential} {stringifyBytes : Credential → List Nat}
    {parseBytes : List Nat → Option Credential}
    (hc : GoodCipher E D key) (hkey : key.length = 32)
    (hiv : iv.length = 16) (hivb : ∀ x ∈ iv, x < 256)
    (hsb : ∀ x ∈ stringifyBytes r, x < 256)
    (hround : parseBytes (stringifyBytes r) = some r) :
    decryptCredential D parseBytes key (encryptCredential E stringifyBytes key iv r)
      = .ok r :=
  decrypt_encrypt_eq_ok hc hiv hivb hsb hround

/-- Witness for C1 at the spec's §8 example record, a 32-character key, a
concrete IV, and the concrete serializer/cipher instances. -/
theorem c1_witness :
    GoodCipher idBlockE idBlockD demoKey ∧ demoKey.length = 32 ∧
    demoIv.length = 16 ∧ (∀ x ∈ demoIv, x < 256) ∧
    (∀ x ∈ demoStringifyBytes demoCred, x < 256) ∧
    demoParseBytes (demoStringifyBytes demoCred) = some demoCred ∧
    decryptCredential idBlockD demoParseBytes demoKey
      (encryptCredential idBlockE demoStringifyBytes demoKey demoIv demoCred)
      = .ok demoCred :=
  ⟨goodCipher_id demoKey, by decide, by decide, by decide, by decide, by decide,
   c1_decrypt_encrypt_roundtrip (goodCipher_id demoKey) (by decide) (by decide)
     (by decide) (by decide) (by decide)⟩

/-- C2: constructing with a non-empty key whose length is not 32 fails with
`InvalidKeyLength`, for every environment, platform (even an unsupported one,
showing the failure precedes path resolution) and file-system state (showing
no I/O occurs: the error result carries no state change). -/
theorem c2_invalid_key_length (env : Str → Option Str) (platform : Platform)
    (home ns k : Str) (fs : Fs) (hne : k ≠ []) (hlen : k.length ≠ 32) :
    mkFileSystemStorageStrategy env platform home ns (some k) fs
      = .error .invalidKeyLength := by
  rw [mkFileSystemStorageStrategy, if_pos]
  refine ⟨?_, by simpa using hlen⟩
  cases k with
  | nil => exact absurd rfl hne
  | cons c cs => rfl

/-- Witness for C2: a short key on an unsupported platform still reports
`InvalidKeyLength`, not `UnsupportedPlatform`. -/
theorem c2_witness :
    (str "short") ≠ [] ∧ (str "short").length ≠ 32 ∧
    mkFileSystemStorageStrategy (fun _ => none) .other (str "/home/u") (str "ns")
      (some (str "short")) ⟨[], []⟩ = .error .invalidKeyLength :=
  ⟨by decide, by decide,
   c2_invalid_key_length (fun _ => none) .other (str "/home/u") (str "ns")
     (str "short") ⟨[], []⟩ (by decide) (by decide)⟩

/-- C3: starting from a state with no file for storage key `x`, `getCredential`
returns absent; after `storeCredential(x, r)` it returns `r` (in both the
plaintext and the encrypted configuration); after `removeCredential(x)` it
returns absent again. -/
theorem c3_storage_lifecycle {E D : Str → List Nat → List Nat} {key : Str}
    {iv : List Nat} {r : Credential} {dir x : Str} {fs : Fs}
    {stringifyBytes : Credential → List Nat} {parseBytes : List Nat → Option Credential}
    {stringifyPlain : Credential → Str} {parsePlain : Str → Option Credential}
    (hc : GoodCipher E D key) (hkey : key.length = 32)
    (hiv : iv.length = 16) (hivb : ∀ b ∈ iv, b < 256)
    (hsb : ∀ b ∈ stringifyBytes r, b < 256)
    (hroundB : parseBytes (stringifyBytes r) = some r)
    (hroundP : parsePlain (stringifyPlain r) = some r)
    (habsent : fs.readFile (pathJoin dir x) = none) :
    (getCredential D parseBytes parsePlain ⟨dir, none⟩ fs x = .ok none
      ∧ getCredential D parseBytes parsePlain ⟨dir, none⟩
          (storeCredential E stringifyBytes stringifyPlain ⟨dir, none⟩ iv fs x r) x
          = .ok (some r)
      ∧ getCredential D parseBytes parsePlain ⟨dir, none⟩
          (removeCredential ⟨dir, none⟩
            (storeCredential E stringifyBytes stringifyPlain ⟨dir, none⟩ iv fs x r) x) x
          = .ok none)
    ∧ (getCredential D parseBytes parsePlain ⟨dir, some key⟩ fs x = .ok none
      ∧ getCredential D parseBytes parsePlain ⟨dir, some key⟩
          (storeCredential E stringifyBytes stringifyPlain ⟨dir, some key⟩ iv fs x r) x
          = .ok (some r)
      ∧ getCredential D parseBytes parsePlain ⟨dir, some key⟩
          (removeCredential ⟨dir, some key⟩
            (storeCredential E stringifyBytes stringifyPlain ⟨dir, some key⟩ iv fs x r) x) x
          = .ok none) := by
  have hk : key ≠ [] := by
    intro hk0
    rw [hk0] at hkey
    simp at hkey
  have htruthy : strTruthy? (some key) = true := strTruthy?_some_of_ne hk
  refine ⟨⟨?_, ?_, ?_⟩, ⟨?_, ?_, ?_⟩⟩
  · rw [getCredential]
    simp [habsent]
  · rw [storeCredential, getCredential]
    simp only [strTruthy?, List.isEmpty_nil, Bool.not_true, Bool.false_eq_true, if_false,
      readFile_writeFile_self, hroundP]
  · rw [storeCredential, removeCredential]
    simp only [strTruthy?, List.isEmpty_nil, Bool.not_true, Bool.false_eq_true, if_false,
      readFile_writeFile_self, Option.isSome_some, if_true]
    rw [getCredential]
    simp [readFile_deleteFile_self]
  · rw [getCredential]
    simp [habsent]
  · rw [storeCredential, getCredential]
    simp only [htruthy, if_true, readFile_writeFile_self, Option.getD_some]
    rw [decrypt_encrypt_eq_ok hc hiv hivb hsb hroundB]
  · rw [storeCredential, removeCredential]
    simp only [htruthy, if_true, readFile_writeFile_self, Option.isSome_some]
    rw [getCredential]
    simp [readFile_deleteFile_self]

/-- Witness for C3 at concrete values: empty file system, concrete key, IV,
record and directory, with the identity cipher and the demo serializers. -/
theorem c3_witness :
    (getCredential idBlockD demoParseBytes demoParse ⟨str "/var/ns", none⟩ ⟨[], []⟩
        (str "c.json") = .ok none
      ∧ getCredential idBlockD demoParseBytes demoParse ⟨str "/var/ns", none⟩
          (storeCredential idBlockE demoStringifyBytes demoStringify ⟨str "/var/ns", none⟩
            demoIv ⟨[], []⟩ (str "c.json") demoCred) (str "c.json")
          = .ok (some demoCred)
      ∧ getCredential idBlockD demoParseBytes demoParse ⟨str "/var/ns", none⟩
          (removeCredential ⟨str "/var/ns", none⟩
            (storeCredential idBlockE demoStringifyBytes demoStringify ⟨str "/var/ns", none⟩
              demoIv ⟨[], []⟩ (str "c.json") demoCred) (str "c.json")) (str "c.json")
          = .ok none)
    ∧ (getCredential idBlockD demoParseBytes demoParse ⟨str "/var/ns", some demoKey⟩ ⟨[], []⟩
        (str "c.json") = .ok none
      ∧ getCredential idBlockD demoParseBytes demoParse ⟨str "/var/ns", some demoKey⟩
          (storeCredential idBlockE demoStringifyBytes demoStringify
            ⟨str "/var/ns", some demoKey⟩ demoIv ⟨[], []⟩ (str "c.json") demoCred)
          (str "c.json") = .ok (some demoCred)
      ∧ getCredential idBlockD demoParseBytes demoParse ⟨str "/var/ns", some demoKey⟩
          (removeCredential ⟨str "/var/ns", some demoKey⟩
            (storeCredential idBlockE demoStringifyBytes demoStringify
              ⟨str "/var/ns", some demoKey⟩ demoIv ⟨[], []⟩ (str "c.json") demoCred)
            (str "c.json")) (str "c.json") = .ok none) :=
  c3_storage_lifecycle (goodCipher_id demoKey) (by decide) (by decide) (by decide)
    (by decide) (by decide) (by decide) (by decide)

/-- C5: an input with no colon fails with `InvalidEnvelope` before any cipher
operation (the result holds for every cipher and key); with two or more
segments the first is the IV and the remaining segments, rejoined with `:`,
are the ciphertext. -/
theorem c5_envelope_split (D : Str → List Nat → List Nat)
    (parseBytes : List Nat → Option Credential) (key : Str) :
    (∀ s : Str, ':' ∉ s →
      decryptCredential D parseBytes key s = .error .invalidEnvelope)
    ∧ (∀ a b : Str, ':' ∉ a →
      decryptCredential D parseBytes key (a ++ ':' :: b)
        = match cbcDecrypt D key (hexDecode a) (hexDecode b) with
          | none => .error .decryptionFailure
          | some pt =>
            match parseBytes pt with
            | none => .error .malformedRecord
            | some c => .ok c) := by
  constructor
  · intro s hs
    rw [decryptCredential]
    simp [splitOnChar_of_not_mem hs]
  · intro a b ha
    rw [decryptCredential]
    simp only [splitOnChar_append_cons b ha]
    have hlen : ¬ (a :: splitOnChar ':' b).length < 2 := by
      cases hsb : splitOnChar ':' b with
      | nil => exact absurd hsb (splitOnChar_ne_nil ':' b)
      | cons h t => simp [hsb]
    rw [if_neg hlen]
    simp only [List.headD_cons, List.tail_cons, intercalateChar_splitOnChar]

/-- Witness for C5: the spec's `decrypt("invalid", k)` example. -/
theorem c5_witness :
    decryptCredential idBlockD demoParseBytes demoKey (str "invalid")
      = .error .invalidEnvelope :=
  (c5_envelope_split idBlockD demoParseBytes demoKey).1 (str "invalid") (by decide)

/-- C6: with no encryption key configured, after `storeCredential(x, r)` the
full content of the file at `<baseDir>/<x>` is exactly the canonical
serialization of `r`, with no envelope framing. -/
theorem c6_plaintext_store_content {E : Str → List Nat → List Nat}
    {stringifyBytes : Credential → List Nat} {stringifyPlain : Credential → Str}
    {st : FileSystemStorageStrategy} {iv : List Nat} {fs : Fs} {x : Str} {r : Credential}
    (hplain : st.encryptionKey = none) :
    (storeCredential E stringifyBytes stringifyPlain st iv fs x r).readFile
      (pathJoin st.appDataDir x) = some (stringifyPlain r) := by
  rw [storeCredential]
  simp only [hplain, strTruthy?, Bool.false_eq_true, if_false]
  exact readFile_writeFile_self fs _ _

/-- Witness for C6 at concrete values. -/
theorem c6_witness :
    (storeCredential idBlockE demoStringifyBytes demoStringify ⟨str "/var/ns", none⟩
      demoIv ⟨[], []⟩ (str "c.json") demoCred).readFile
        (pathJoin (str "/var/ns") (str "c.json")) = some (demoStringify demoCred) :=
  c6_plaintext_store_content rfl

/-- C7: when no file exists at the path for a storage key, `getCredential`
returns absent (not an error) and `removeCredential` completes as a no-op,
leaving the file-system state unchanged. -/
theorem c7_missing_resource {D : Str → List Nat → List Nat}
    {parseBytes : List Nat → Option Credential} {parsePlain : Str → Option Credential}
    {st : FileSystemStorageStrategy} {fs : Fs} {x : Str}
    (habs : fs.readFile (pathJoin st.appDataDir x) = none) :
    getCredential D parseBytes parsePlain st fs x = .ok none
      ∧ removeCredential st fs x = fs := by
  constructor
  · rw [getCredential]
    simp [habs]
  · rw [removeCredential]
    simp [habs]

/-- Witness for C7 on the empty file system. -/
theorem c7_witness :
    getCredential idBlockD demoParseBytes demoParse ⟨str "/var/ns", some demoKey⟩ ⟨[], []⟩
        (str "c.json") = .ok none
      ∧ removeCredential ⟨str "/var/ns", some demoKey⟩ ⟨[], []⟩ (str "c.json")
          = (⟨[], []⟩ : Fs) :=
  c7_missing_resource (by decide)

/-- Path resolution can fail only with `UnsupportedPlatform`. -/
theorem appDataDir_error_unsupported {env : Str → Option Str} {platform : Platform}
    {home ns : Str} {e : CredError}
    (h : appDataDir env platform home ns = .error e) : e = .unsupportedPlatform := by
  rw [appDataDir.eq_def] at h
  by_cases hov : strTruthy? (env overrideVarName) = true
  · rw [if_pos hov] at h
    exact absurd h (by simp)
  · rw [if_neg hov] at h
    cases platform <;> simp_all

/-- C8 counterexample: with the override variable set to the empty string (a
set but falsy value), the platform switch still runs — on linux the result is
`/var/<namespace>`, not `<override>/<namespace>`, and on an unrecognized
platform resolution fails — so platform detection does influence the result. -/
theorem c8_counterexample :
    envEmptyOverride overrideVarName = some []
    ∧ appDataDir envEmptyOverride .linux (str "/home/u") (str "ns")
        = .ok (str "/var/ns")
    ∧ appDataDir envEmptyOverride .linux (str "/home/u") (str "ns")
        ≠ .ok (pathJoin [] (str "ns"))
    ∧ appDataDir envEmptyOverride .other (str "/home/u") (str "ns")
        = .error .unsupportedPlatform := by
  decide

/-- C8 (amended): whenever the override environment variable is set to a
non-empty value, the resolved base directory is exactly
`<override>/<namespace>`, and no platform detection (OS switch, home
directory, or platform-specific environment variables) influences the
result — the conclusion is identical for every platform and home. -/
theorem c8_override_nonempty (env : Str → Option Str) (platform : Platform)
    (home ns ov : Str) (hov : env overrideVarName = some ov) (hne : ov ≠ []) :
    appDataDir env platform home ns = .ok (pathJoin ov ns) := by
  rw [appDataDir.eq_def, hov]
  simp [strTruthy?_some_of_ne hne]

/-- Witness for C8: a non-empty override on an unrecognized platform. -/
theorem c8_witness :
    appDataDir envTmpOverride .other (str "/home/u") (str "ns")
      = .ok (pathJoin (str "/tmp") (str "ns")) :=
  c8_override_nonempty envTmpOverride .other (str "/home/u") (str "ns") (str "/tmp")
    (by decide) (by decide)

/-- C9: two encryptions of the same record under the same 32-unit key with
distinct 16-byte IVs produce different envelope strings, and each envelope
decrypts back to the record. -/
theorem c9_iv_nondeterminism {E D : Str → List Nat → List Nat} {key : Str}
    {iv1 iv2 : List Nat} {r : Credential}
    {stringifyBytes : Credential → List Nat} {parseBytes : List Nat → Option Credential}
    (hc : GoodCipher E D key) (hkey : key.length = 32)
    (h1 : iv1.length = 16) (hb1 : ∀ b ∈ iv1, b < 256)
    (h2 : iv2.length = 16) (hb2 : ∀ b ∈ iv2, b < 256)
    (hsb : ∀ b ∈ stringifyBytes r, b < 256)
    (hround : parseBytes (stringifyBytes r) = some r)
    (hne : iv1 ≠ iv2) :
    encryptCredential E stringifyBytes key iv1 r
        ≠ encryptCredential E stringifyBytes key iv2 r
    ∧ decryptCredential D parseBytes key (encryptCredential E stringifyBytes key iv1 r)
        = .ok r
    ∧ decryptCredential D parseBytes key (encryptCredential E stringifyBytes key iv2 r)
        = .ok r := by
  refine ⟨?_, decrypt_encrypt_eq_ok hc h1 hb1 hsb hround,
    decrypt_encrypt_eq_ok hc h2 hb2 hsb hround⟩
  intro heq
  rw [encryptCredential, encryptCredential] at heq
  have hlen : (hexEncode iv1).length = (hexEncode iv2).length := by
    rw [hexEncode_length, hexEncode_length, h1, h2]
  obtain ⟨hpre, -⟩ := List.append_inj heq hlen
  exact hne (hexEncode_inj hb1 hb2 hpre)

/-- Witness for C9 with two concrete distinct IVs. -/
theorem c9_witness :
    encryptCredential idBlockE demoStringifyBytes demoKey demoIv demoCred
        ≠ encryptCredential idBlockE demoStringifyBytes demoKey demoIv2 demoCred
    ∧ decryptCredential idBlockD demoParseBytes demoKey
        (encryptCredential idBlockE demoStringifyBytes demoKey demoIv demoCred)
        = .ok demoCred
    ∧ decryptCredential idBlockD demoParseBytes demoKey
        (encryptCredential idBlockE demoStringifyBytes demoKey demoIv2 demoCred)
        = .ok demoCred :=
  c9_iv_nondeterminism (goodCipher_id demoKey) (by decide) (by decide) (by decide)
    (by decide) (by decide) (by decide) (by decide) (by decide)

/-- C10: an empty-string encryption key does not trip the `InvalidKeyLength`
guard (the JS truthiness test skips it), and the resulting instance behaves
exactly as one constructed with no key: construction fails only as the no-key
construction does, `storeCredential` and `getCredential` coincide with the
no-key instance on every state, and the stored content is the canonical
plaintext serialization. -/
theorem c10_empty_key_behaves_plaintext (env : Str → Option Str) (platform : Platform)
    (home ns : Str) (fs : Fs) (E D : Str → List Nat → List Nat)
    (stringifyBytes : Credential → List Nat) (stringifyPlain : Credential → Str)
    (parseBytes : List Nat → Option Credential) (parsePlain : Str → Option Credential)
    (dir : Str) (iv : List Nat) (fs2 : Fs) (x : Str) (r : Credential) :
    mkFileSystemStorageStrategy env platform home ns (some []) fs
        ≠ .error .invalidKeyLength
    ∧ (mkFileSystemStorageStrategy env platform home ns (some []) fs
          = .error .unsupportedPlatform
        ↔ mkFileSystemStorageStrategy env platform home ns none fs
          = .error .unsupportedPlatform)
    ∧ storeCredential E stringifyBytes stringifyPlain ⟨dir, some []⟩ iv fs2 x r
        = storeCredential E stringifyBytes stringifyPlain ⟨dir, none⟩ iv fs2 x r
    ∧ getCredential D parseBytes parsePlain ⟨dir, some []⟩ fs2 x
        = getCredential D parseBytes parsePlain ⟨dir, none⟩ fs2 x
    ∧ (storeCredential E stringifyBytes stringifyPlain ⟨dir, some []⟩ iv fs2 x r).readFile
        (pathJoin dir x) = some (stringifyPlain r) := by
  have hguard : ¬(strTruthy? (some ([] : Str)) = true ∧ ((some ([] : Str)).getD []).length ≠ 32) := by
    simp [strTruthy?]
  refine ⟨?_, ?_, rfl, ?_, ?_⟩
  · rw [mkFileSystemStorageStrategy, if_neg hguard]
    cases happ : appDataDir env platform home ns with
    | error e =>
      rw [appDataDir_error_unsupported happ]
      simp
    | ok d => simp
  · rw [mkFileSystemStorageStrategy, if_neg hguard,
      mkFileSystemStorageStrategy, if_neg (by simp [strTruthy?])]
    cases happ : appDataDir env platform home ns with
    | error e => simp
    | ok d => simp
  · rw [getCredential, getCredential]
    cases hread : fs2.readFile (pathJoin dir x) with
    | none => simp [hread]
    | some file => simp [hread, strTruthy?]
  · exact readFile_writeFile_self fs2 _ _

/-- C4 evaluated at a failing input: a genuine three-block envelope, tampered
by flipping one bit of ciphertext byte 5 (inside the first, non-final block).
The CBC padding check cannot see the flip — only the final block's padding is
checked — so `decrypt` does not fail with `DecryptionFailure`; here it
silently returns a valid-looking record different from the original, exactly
what the claim (and the README's advertised authenticated encryption) rules
out. -/
theorem c4_tamper_not_rejected :
    decryptCredential idBlockD demoParseBytes demoKey c4Envelope = .ok c4Cred
    ∧ c4TamperedCt.length = c4Ct.length
    ∧ c4TamperedCt ≠ c4Ct
    ∧ decryptCredential idBlockD demoParseBytes demoKey c4Tampered
        ≠ .error .decryptionFailure
    ∧ decryptCredential idBlockD demoParseBytes demoKey c4Tampered ≠ .ok c4Cred
    ∧ (decryptCredential idBlockD demoParseBytes demoKey c4Tampered).isOk = true := by
  decide

end FsCred
